import Mathlib

/-!
Verification development for the nutils debug/config modules
(`src/nutils/debug.py`, `src/nutils/config.py`).

Python strings are modelled as `List Char`; Python exceptions are modelled
by `Except PyExc` where a `PyExc` records the exception class name and its
message.  Source files read through `linecache` are modelled as the list of
their lines (1-based, each line normally keeping its trailing newline, and
`linecache.getline` returning the empty string out of range).
-/

set_option maxRecDepth 10000

/-- A Python exception: class name and message. -/
abbrev PyExc := List Char × List Char

def indexError : PyExc := ("IndexError".data, "string index out of range".data)

/-- Characters stripped by Python 2 `str.strip()` (string.whitespace). -/
def isPySpace (c : Char) : Bool :=
  c = ' ' ∨ c = '\t' ∨ c = '\n' ∨ c = '\x0b' ∨ c = '\x0c' ∨ c = '\r'

/-- `str.lstrip()`. -/
def pyLstrip (s : List Char) : List Char := s.dropWhile isPySpace

/-- `str.rstrip()`. -/
def pyRstrip (s : List Char) : List Char := (s.reverse.dropWhile isPySpace).reverse

/-- `str.strip()`. -/
def pyStrip (s : List Char) : List Char := pyRstrip (pyLstrip s)

/-- `line.rstrip().endswith( '\\' )`. -/
def pyEndsBackslash (s : List Char) : Bool := (pyRstrip s).getLast? = some '\\'

/-- `linecache.getline(path, lineno)`: 1-based line access, `''` out of range. -/
def pyGetline (file : List (List Char)) : Nat → List Char
  | 0 => []
  | Nat.succ m => file.getD m []

/-- The `'<not avaliable>'` sentinel returned by `Frame.source` (sic, as in the code). -/
def sentinel : List Char := "<not avaliable>".data

/-- The decorator-collecting loop of `Frame.source`:
`while line[indent] == '@': lineno += 1; line = self.getline(lineno); source += line[indent:]`.
`rest` is the list of lines after line number `lineno` (i.e. `file.drop lineno`);
`line[indent]` on a too-short line raises `IndexError`. -/
def decoLoopGo (indent : Nat) :
    Nat → List (List Char) → List Char →
    Except PyExc (Nat × List (List Char) × List Char × List Char)
  | _lineno, [], _source =>
    -- `getline` past the end of the file returns `''`; the `line[indent]`
    -- check on `''` raises IndexError.
    .error indexError
  | lineno, l :: rest', source =>
    -- `lineno += 1; line = self.getline(lineno); source += line[indent:]`
    let source' := source ++ l.drop indent
    match l.get? indent with
    | none => .error indexError
    | some c =>
      if c = '@' then decoLoopGo indent (lineno + 1) rest' source'
      else .ok (lineno + 1, rest', l, source')

/-- Entry to the decorator loop: the `line[indent] == '@'` test on the first
line, then the advancing steps (`decoLoopGo`). -/
def decoLoop (indent lineno : Nat) (rest : List (List Char)) (line source : List Char) :
    Except PyExc (Nat × List (List Char) × List Char × List Char) :=
  match line.get? indent with
  | none => .error indexError
  | some c =>
    if c = '@' then decoLoopGo indent lineno rest source
    else .ok (lineno, rest, line, source)

/-- The forward scan of `Frame.source` (`while True: lineno += 1; ...`).
`rest` is the list of lines after line number `lineno`; scanning an empty
`rest` models `linecache.getline` returning `''`, which breaks the loop. -/
def scanLoop (indent cursor : Nat) :
    Nat → List (List Char) → Bool → List Char → List Char
  | _lineno, [], _linebreak, source => source
  | lineno, l :: rest', linebreak, source =>
    let lineno' := lineno + 1
    if (pyLstrip (l.take (indent + 1))).head? = some '#' then
      -- `line = ' ' * indent + line.lstrip()`
      let line := List.replicate indent ' ' ++ pyLstrip l
      scanLoop indent cursor lineno' rest' (pyEndsBackslash line)
        (source ++ (if lineno' = cursor then '>' :: line.drop (indent + 1) else line.drop indent))
    else if l = [] ∨ (pyStrip (l.take (indent + 1)) ≠ [] ∧ linebreak = false) then
      -- `elif not line or line[:indent+1].strip() and not linebreak: break`
      source
    else
      scanLoop indent cursor lineno' rest' (pyEndsBackslash l)
        (source ++ (if lineno' = cursor then '>' :: l.drop (indent + 1) else l.drop indent))

/-- `Frame.source`: reconstruct the function body starting at `firstlineno`
(`f_code.co_firstlineno`) in `file`, marking the `cursor` line (`self.lineno`)
with a leading `'>'`.  Raised `IndexError`s are modelled as `Except.error`. -/
def frameSource (file : List (List Char)) (firstlineno cursor : Nat) : Except PyExc (List Char) :=
  let line := pyGetline file firstlineno
  if line = [] then .ok sentinel
  else
    let indent := line.length - (pyLstrip line).length
    match decoLoop indent firstlineno (file.drop firstlineno) line (line.drop indent) with
    | .error ex => .error ex
    | .ok (lineno, rest, _line, source) =>
      .ok (pyRstrip (scanLoop indent cursor lineno rest false source))

/-- One link of a captured traceback (`tb_frame` is modelled below; here we
only need the pieces of the execution context the claims inspect). -/
structure PyFrame where
  /-- lines of the file named by `f_code.co_filename`, as read by `linecache` -/
  file : List (List Char)
  /-- `f_code.co_firstlineno` -/
  f_firstlineno : Nat
  /-- `f_lineno` -/
  f_lineno : Nat
  /-- the `'File "%s", line %d, in %s'` location string for a given cursor line;
  its computation (os.path.relpath plus the class-name reflection heuristic of
  `Frame._name`) is OS- and runtime-reflection dependent and is modelled
  abstractly -/
  whereOf : Nat → List Char
  /-- `f_locals` as a list of (name, str(value)) pairs; a value whose `str()`
  raises is an `Except.error` -/
  f_locals : List (List Char × Except PyExc (List Char))
  /-- result of `eval(arg, f_globals, f_locals)` followed by `str()`:
  an abstract evaluation oracle -/
  evalResult : List Char → Except PyExc (List Char)

/-- `debug.Frame`: an execution context plus the captured cursor line. -/
structure Frame where
  frame : PyFrame
  lineno : Nat

/-- `Frame.__init__`: `self.lineno = lineno or self.frame.f_lineno`
(`None` and `0` are both falsy). -/
def Frame.make (f : PyFrame) (lineno : Option Nat) : Frame :=
  ⟨f, match lineno with
      | some n => if n ≠ 0 then n else f.f_lineno
      | none => f.f_lineno⟩

/-- `Frame.getline`. -/
def Frame.getline (f : Frame) (n : Nat) : List Char := pyGetline f.frame.file n

/-- `Frame.where`. -/
def Frame.whereStr (f : Frame) : List Char := f.frame.whereOf f.lineno

/-- `Frame.context`: `'  %s\n    %s' % (self.where, self.getline(self.lineno).strip())`. -/
def Frame.context (f : Frame) : List Char :=
  "  ".data ++ f.whereStr ++ "\n    ".data ++ pyStrip (f.getline f.lineno)

/-- `Frame.source` of the wrapper object. -/
def Frame.sourceE (f : Frame) : Except PyExc (List Char) :=
  frameSource f.frame.file f.frame.f_firstlineno f.lineno

/-- One link of a traceback object. -/
structure TBItem where
  tb_frame : PyFrame
  tb_lineno : Nat

/-- `frames_from_traceback`: walk `tb.tb_next` links in order, one `Frame`
per link with its recorded line number. -/
def frames_from_traceback (tb : List TBItem) : List Frame :=
  tb.map fun t => Frame.make t.tb_frame (some t.tb_lineno)

/-- Claim C1 (counterexample): `Frame.source` is not exception-free for
arbitrary file contents: on a file whose first line is whitespace-only
(`' \n'`), `line[indent]` raises IndexError. -/
theorem C1_counterexample :
    frameSource [[' ', '\n']] 1 1 = Except.error indexError := by
  rfl

/-- Claim C1 (amended): `Frame.source` returns the fixed sentinel whenever the
line at the function's first line number is unavailable (i.e. `getline` yields
the empty string, which covers a missing file and an out-of-range line); and
whenever that first line has a proper character at its indentation column that
is not the decorator marker `'@'`, reconstruction succeeds without raising.
Only the decorator scan (`line[indent]`) can raise. -/
theorem C1_amended (file : List (List Char)) (n cursor : Nat) :
    (pyGetline file n = [] → frameSource file n cursor = Except.ok sentinel)
    ∧ (∀ c, (pyGetline file n).get?
          ((pyGetline file n).length - (pyLstrip (pyGetline file n)).length) = some c →
        c ≠ '@' → ∃ s, frameSource file n cursor = Except.ok s) := by
  constructor
  · intro h
    simp [frameSource, h]
  · intro c hc hne
    have hnonempty : pyGetline file n ≠ [] := by
      intro h
      rw [h] at hc
      simp at hc
    unfold frameSource
    simp only [if_neg hnonempty]
    unfold decoLoop
    rw [hc]
    simp [if_neg hne]

/-- Claim C1 (witness for the amended theorem): at the empty file the sentinel
comes back, and on a one-line file `def f(): pass` reconstruction succeeds. -/
theorem C1_amended_witness :
    frameSource [] 1 1 = Except.ok sentinel
    ∧ ∃ s, frameSource ["def f(): pass\n".data] 1 1 = Except.ok s := by
  refine ⟨(C1_amended [] 1 1).1 rfl, (C1_amended ["def f(): pass\n".data] 1 1).2 'd' ?_ ?_⟩
  · decide
  · decide

/-- `str.splitlines()` worker (`acc` holds the current line reversed). -/
def splitlinesGo : List Char → List Char → List (List Char)
  | acc, [] => if acc = [] then [] else [acc.reverse]
  | acc, '\r' :: '\n' :: rest => acc.reverse :: splitlinesGo [] rest
  | acc, '\n' :: rest => acc.reverse :: splitlinesGo [] rest
  | acc, '\r' :: rest => acc.reverse :: splitlinesGo [] rest
  | acc, c :: rest => splitlinesGo (c :: acc) rest

/-- Python 2 `str.splitlines()`. -/
def pySplitlines (s : List Char) : List (List Char) := splitlinesGo [] s

/-- `str.replace(c, rep)` for a single-character pattern (the only form used
by the code: `.replace('<','&lt;').replace('>','&gt;')`). -/
def pyReplaceChar (c : Char) (rep : List Char) : List Char → List Char
  | [] => []
  | d :: rest => (if d = c then rep else [d]) ++ pyReplaceChar c rep rest

/-- `line.replace('<','&lt;').replace('>','&gt;')`. -/
def htmlEscape (s : List Char) : List Char :=
  pyReplaceChar '>' ("&gt;".data) (pyReplaceChar '<' ("&lt;".data) s)

/-- `\w` for Python 2 byte strings: `[a-zA-Z0-9_]`. -/
def isWordChar (c : Char) : Bool := c.isAlphanum || c = '_'

/-- The alternation `(def|if|elif|else|for|while|with|in|return)`, in regex
order. -/
def pyKeywords : List (List Char) :=
  ["def".data, "if".data, "elif".data, "else".data, "for".data, "while".data,
   "with".data, "in".data, "return".data]

/-- Trailing `\b`: the next character (if any) must not be a word character
(every keyword ends in a word character). -/
def boundaryOk (next : Option Char) : Bool :=
  match next with
  | some c => !(isWordChar c)
  | none => true

/-- Try to match `\b(def|...|return)\b` at the current position.  `prev` is
the character before the position (`none` at the start of the string); all
keywords begin with a word character, so the leading `\b` demands that `prev`
not be a word character. -/
def tryKw (prev : Option Char) (s : List Char) : Option (List Char × List Char) :=
  if (match prev with | some p => isWordChar p | none => false) then none
  else pyKeywords.findSome? fun k =>
    if k.isPrefixOf s then
      let rest := s.drop k.length
      if boundaryOk rest.head? then some (k, rest) else none
    else none

/-- Left-to-right non-overlapping scan of
`re.sub(r'\b(def|if|elif|else|for|while|with|in|return)\b', r'<b>\1</b>', line)`.
The fuel is the length of the string; every step consumes at least one
character, so `boldKeywords` below never exhausts it. -/
def boldAux : Nat → Option Char → List Char → List Char
  | 0, _, s => s
  | _ + 1, _, [] => []
  | fuel + 1, prev, c :: rest =>
    match tryKw prev (c :: rest) with
    | some (k, rem) => "<b>".data ++ k ++ "</b>".data ++ boldAux fuel k.getLast? rem
    | none => c :: boldAux fuel (some c) rest

/-- The keyword-bolding substitution of `write_html`. -/
def boldKeywords (s : List Char) : List Char := boldAux s.length none s

/-- Delete every `<b>` and `</b>` token (used to state that the bolding
substitution only inserts fixed markup). -/
def removeBold : List Char → List Char
  | [] => []
  | c :: rest =>
    if c = '<' ∧ rest.take 2 = "b>".data then removeBold (rest.drop 2)
    else if c = '<' ∧ rest.take 3 = "/b>".data then removeBold (rest.drop 3)
    else c :: removeBold rest
termination_by s => s.length
decreasing_by
  all_goals simp [List.length_drop]
  all_goals omega

/-- Undo HTML entity escaping of `&lt;`/`&gt;` (the rendered text of markup). -/
def htmlUnescape : List Char → List Char
  | [] => []
  | c :: rest =>
    if c = '&' ∧ rest.take 3 = "lt;".data then '<' :: htmlUnescape (rest.drop 3)
    else if c = '&' ∧ rest.take 3 = "gt;".data then '>' :: htmlUnescape (rest.drop 3)
    else c :: htmlUnescape rest
termination_by s => s.length
decreasing_by
  all_goals simp [List.length_drop]
  all_goals omega

/-- Number of (possibly overlapping) occurrences of `pat` in a string. -/
def countSub (pat : List Char) : List Char → Nat
  | [] => 0
  | c :: rest => (if pat.isPrefixOf (c :: rest) then 1 else 0) + countSub pat rest

/-- `Frame.__str__` returns `self.context`. -/
def Frame.str (f : Frame) : List Char := f.context

/-- Project the payload out of a successful computation (used to state
closed facts about concrete renderer runs). -/
def exceptOk (e : Except PyExc (List Char)) : List Char :=
  match e with
  | .ok s => s
  | .error _ => []

/-- The literal `'<span class="error"> '` of the cursor-line format string. -/
def spanOpenTok : List Char := "<span class=\"error\"> ".data

/-- The per-source-line write of `write_html`: mark lines starting with the
sentinel `'>'` with the error span, escape, then bold keywords. -/
def sourceLineFragment (line : List Char) : List Char :=
  if line.head? = some '>' then
    spanOpenTok ++ boldKeywords (htmlEscape line.tail) ++ "</span>\n".data
  else boldKeywords (htmlEscape line) ++ ['\n']

/-- All source-line writes of one frame (`for line in f.source.splitlines()`). -/
def sourceBlock (src : List Char) : List Char :=
  ((pySplitlines src).map sourceLineFragment).flatten

/-- One row of the locals table:
`'<tr><td>%s</td><td>%s</td></tr>\n' % (key, val)` with
`val = str(val).replace('<','&lt;').replace('>','&gt;')`, or `'ERROR'` when
`str(val)` raises. -/
def localFragment (kv : List Char × Except PyExc (List Char)) : List Char :=
  "<tr><td>".data ++ kv.1 ++ "</td><td>".data ++
    (match kv.2 with
     | .ok s => htmlEscape s
     | .error _ => "ERROR".data) ++ "</td></tr>\n".data

/-- `f.context.splitlines()[0]`. -/
def contextFirstLine (f : Frame) : List Char := (pySplitlines f.context).headD []

/-- The whole per-frame section of `write_html`; an IndexError raised by
`f.source` propagates. -/
def frameSection (f : Frame) : Except PyExc (List Char) :=
  match f.sourceE with
  | .error ex => .error ex
  | .ok src =>
    .ok (contextFirstLine f ++ ['\n']
      ++ sourceBlock src
      ++ "\n\n".data
      ++ "<table border=\"1\" style=\"border:none; margin:0px; padding:0px;\">\n".data
      ++ (f.frame.f_locals.map localFragment).flatten
      ++ "</table>\n".data
      ++ "<hr/>\n".data)

/-- `write_html(out, exc_info)`: the full text written to `out`.  `excRepr`
is `repr(exc_value)`.  Frames are rendered innermost-first (`reversed`); the
identification dump at the top is `'\n'.join([repr(exc_value)] + map(str, frames))`. -/
def write_html (excRepr : List Char) (tb : List TBItem) : Except PyExc (List Char) :=
  let frames := frames_from_traceback tb
  match (frames.reverse).mapM frameSection with
  | .error ex => .error ex
  | .ok sections =>
    .ok ("<span class=\"info\">".data ++ "\n<hr/>".data
      ++ "<b>EXHAUSTIVE POST-MORTEM DUMP FOLLOWS</b>\n".data
      ++ List.intercalate ['\n'] (excRepr :: frames.map Frame.str)
      ++ "<hr/>\n".data
      ++ sections.flatten
      ++ "</span>".data)

/-- Claim C4: `frames_from_traceback` yields one `Frame` per traceback link,
in the runtime's (oldest-first) order, each carrying its link's recorded line
number.  The hypothesis that recorded line numbers are nonzero is a CPython
invariant (`tb_lineno >= 1`); it matters because `Frame.__init__` treats a
falsy `lineno` as absent. -/
theorem C4_frames_from_traceback (tb : List TBItem)
    (h : ∀ t ∈ tb, t.tb_lineno ≠ 0) :
    (frames_from_traceback tb).length = tb.length
    ∧ ∀ i t, tb.get? i = some t →
        ∃ fr, (frames_from_traceback tb).get? i = some fr
          ∧ fr.lineno = t.tb_lineno ∧ fr.frame = t.tb_frame := by
  constructor
  · simp [frames_from_traceback]
  · intro i t ht
    refine ⟨Frame.make t.tb_frame (some t.tb_lineno), ?_, ?_, rfl⟩
    · rw [frames_from_traceback]
      rw [List.get?_eq_getElem?] at ht ⊢
      simp [List.getElem?_map, ht]
    · have hmem : t ∈ tb := List.get?_mem ht
      simp [Frame.make, h t hmem]

/-- The example frame used by concrete witnesses: a two-line function whose
cursor line contains an unescaped `<`. -/
def samplePyFrame : PyFrame :=
  { file := ["def f():\n".data, "  x = 1 < 2\n".data]
    f_firstlineno := 1
    f_lineno := 2
    whereOf := fun _ => "File \"demo.py\", line 2, in f".data
    f_locals := []
    evalResult := fun _ => .error ("NameError".data, "name 'q' is not defined".data) }

/-- Claim C4 (witness): the theorem applied to a one-link chain. -/
theorem C4_witness :
    (frames_from_traceback [⟨samplePyFrame, 2⟩]).length = 1
    ∧ ∃ fr, (frames_from_traceback [⟨samplePyFrame, 2⟩]).get? 0 = some fr
        ∧ fr.lineno = 2 ∧ fr.frame = samplePyFrame := by
  have h := C4_frames_from_traceback [⟨samplePyFrame, 2⟩] (by decide)
  exact ⟨h.1, h.2 0 ⟨samplePyFrame, 2⟩ rfl⟩

/-- One character of Python 2 `repr()` of a string (quote `q` chosen by the
caller).  Escaping of other non-printable characters (`\xhh`) is not needed
by any modelled input and is left out. -/
def pyReprChar (q : Char) (c : Char) : List Char :=
  if c = '\\' then ['\\', '\\']
  else if c = q then ['\\', q]
  else if c = '\n' then ['\\', 'n']
  else if c = '\r' then ['\\', 'r']
  else if c = '\t' then ['\\', 't']
  else [c]

/-- Python 2 `repr()` of a string: single quotes unless the string contains a
single quote and no double quote. -/
def pyReprStr (s : List Char) : List Char :=
  let q := if '\'' ∈ s ∧ '"' ∉ s then '"' else '\''
  q :: (s.map (pyReprChar q)).flatten ++ [q]

/-- `cmd.Cmd.identchars`: ASCII letters, digits and underscore. -/
def isIdentChar (c : Char) : Bool := c.isAlpha || c.isDigit || c = '_'

/-- The traceback explorer's session state.  The banner string is computed at
construction and never consulted again; `lastcmd` is the `cmd.Cmd` attribute
driving empty-line repetition. -/
structure Explorer where
  msg : List Char
  frames : List Frame
  index : Int
  lastcmd : List Char

/-- `str.split()` worker (split on whitespace runs, dropping empty pieces). -/
def pySplitWsGo : List Char → List Char → List (List Char)
  | acc, [] => if acc = [] then [] else [acc.reverse]
  | acc, c :: rest =>
    if isPySpace c then
      (if acc = [] then pySplitWsGo [] rest else acc.reverse :: pySplitWsGo [] rest)
    else pySplitWsGo (c :: acc) rest

/-- `str.split()` with no arguments. -/
def pySplitWs (s : List Char) : List (List Char) := pySplitWsGo [] s

/-- One step of the banner word-wrap loop of `Explorer.__init__`. -/
def wrapStep (maxlen : Nat) (st : List (List Char) × List Char) (word : List Char) :
    List (List Char) × List Char :=
  if st.2 = [] ∨ st.2.length + 1 + word.length > maxlen then (st.1 ++ [st.2], word)
  else (st.1, st.2 ++ ' ' :: word)

/-- The wrapped banner lines (`lines` after the loop plus the final append). -/
def introLines (intro : List Char) : List (List Char) :=
  let st := (pySplitWs intro).foldl (wrapStep 44) (["WELCOME TO TRACEBACK EXPLORER.".data], [])
  st.1 ++ [st.2]

/-- `str.ljust(w)`. -/
def pyLjust (s : List Char) (w : Nat) : List Char := s ++ List.replicate (w - s.length) ' '

def unboundLocalError (v : List Char) : PyExc :=
  ("UnboundLocalError".data,
   "local variable ".data ++ pyReprStr v ++ " referenced before assignment".data)

/-- The banner built by `Explorer.__init__`.  In the non-rich branch the
source reads `ul = ul = ll = lr = '+'` — the local `ur` is never assigned, so
joining the box lines evaluates an unassigned local and raises. -/
def explorerIntro (richoutput : Bool) (intro : List Char) : Except PyExc (List Char) :=
  let maxlen := 44
  let lines := introLines intro
  if richoutput then
    .ok (List.intercalate ['\n']
      (['┌' :: List.replicate (maxlen + 2) '─' ++ ['┐']]
        ++ lines.map (fun l => '│' :: pyLjust (' ' :: l) (maxlen + 2) ++ ['│'])
        ++ ['└' :: List.replicate (maxlen + 2) '─' ++ ['┘']]))
  else .error (unboundLocalError ("ur".data))

/-- `Explorer.__init__`: banner construction, then the state assignments
`self.msg = msg; self.frames = frames; self.index = len(frames)-1`
(`lastcmd` starts as the class attribute `''`). -/
def explorerInit (richoutput : Bool) (msg : List Char) (frames : List Frame)
    (intro : List Char) : Except PyExc (List Char × Explorer) :=
  match explorerIntro richoutput intro with
  | .error ex => .error ex
  | .ok banner => .ok (banner, ⟨msg, frames, (frames.length : Int) - 1, []⟩)

/-- `Explorer.show_context`: one line per frame (`' *'[i == self.index]` plus
`f.context[1:]`), then `print ' ', self.msg`. -/
def show_context (e : Explorer) : List Char :=
  (e.frames.enum.map fun p =>
    ((if (p.1 : Int) = e.index then '*' else ' ') :: p.2.context.drop 1) ++ ['\n']).flatten
  ++ (' ' :: ' ' :: e.msg) ++ ['\n']

/-- Python list indexing `l[i]` (negative indices count from the end). -/
def pyIndex {α : Type} (l : List α) (i : Int) : Except PyExc α :=
  let j := if i < 0 then i + l.length else i
  if h : 0 ≤ j ∧ j < l.length then .ok (l.get ⟨j.toNat, by omega⟩)
  else .error ("IndexError".data, "list index out of range".data)

/-- Python slicing `l[:stop]` (negative stop counts from the end). -/
def pySliceTo {α : Type} (l : List α) (stop : Int) : List α :=
  let s := if stop < 0 then stop + l.length else stop
  l.take s.toNat

/-- `Explorer.do_s`: print `f.where` for `frames[:index+1]`, then the source
of the last iterated frame.  With an empty slice the loop variable `f` is
never bound and `print f.source` raises. -/
def do_s (e : Explorer) (_arg : List Char) : Except PyExc (List Char × Explorer × Bool) :=
  let sel := pySliceTo e.frames (e.index + 1)
  match sel.getLast? with
  | none => .error (unboundLocalError ("f".data))
  | some fl =>
    match fl.sourceE with
    | .error ex => .error ex
    | .ok src => .ok ((sel.map fun g => g.whereStr ++ ['\n']).flatten ++ src ++ ['\n'], e, false)

/-- `Explorer.do_l`. -/
def do_l (e : Explorer) (_arg : List Char) : Except PyExc (List Char × Explorer × Bool) :=
  .ok (show_context e, e, false)

/-- `Explorer.do_q`: print `quit.` and stop the loop. -/
def do_q (e : Explorer) (_arg : List Char) : Except PyExc (List Char × Explorer × Bool) :=
  .ok ("quit.\n".data, e, true)

/-- `Explorer.do_u`: `if self.index > 0: self.index -= 1; self.show_context()`. -/
def do_u (e : Explorer) (_arg : List Char) : Except PyExc (List Char × Explorer × Bool) :=
  if 0 < e.index then
    let e' := { e with index := e.index - 1 }
    .ok (show_context e', e', false)
  else .ok ([], e, false)

/-- `Explorer.do_d`: `if self.index < len(self.frames)-1: self.index += 1; ...`. -/
def do_d (e : Explorer) (_arg : List Char) : Except PyExc (List Char × Explorer × Bool) :=
  if e.index < (e.frames.length : Int) - 1 then
    let e' := { e with index := e.index + 1 }
    .ok (show_context e', e', false)
  else .ok ([], e, false)

/-- `Explorer.do_w`: `max(len(name) for name in frame.f_locals)` raises
`ValueError` on an empty locals dict; otherwise print the name/value table
right-justified to the longest name. -/
def do_w (e : Explorer) (_arg : List Char) : Except PyExc (List Char × Explorer × Bool) :=
  match pyIndex e.frames e.index with
  | .error ex => .error ex
  | .ok f =>
    match f.frame.f_locals with
    | [] => .error ("ValueError".data, "max() arg is an empty sequence".data)
    | l0 :: ls =>
      let maxlen := (ls.map fun kv => kv.1.length).foldl max l0.1.length
      match (l0 :: ls).mapM (fun kv =>
          match kv.2 with
          | .error ex => Except.error ex
          | .ok v => Except.ok ("  ".data
              ++ (List.replicate (maxlen - kv.1.length) ' ' ++ kv.1)
              ++ " : ".data ++ v ++ ['\n'])) with
      | .error ex => .error ex
      | .ok rows => .ok (rows.flatten, e, false)

/-- `Explorer.do_p`: `print eval(arg, frame.f_globals, frame.f_locals)`. -/
def do_p (e : Explorer) (arg : List Char) : Except PyExc (List Char × Explorer × Bool) :=
  match pyIndex e.frames e.index with
  | .error ex => .error ex
  | .ok f =>
    match f.frame.evalResult arg with
    | .error ex => .error ex
    | .ok v => .ok (v ++ ['\n'], e, false)

/-- `Explorer.do_pp`: as `do_p` with `pprint.pprint` (the oracle covers the
formatting as well). -/
def do_pp (e : Explorer) (arg : List Char) : Except PyExc (List Char × Explorer × Bool) :=
  match pyIndex e.frames e.index with
  | .error ex => .error ex
  | .ok f =>
    match f.frame.evalResult arg with
    | .error ex => .error ex
    | .ok v => .ok (v ++ ['\n'], e, false)

/-- `cmd.Cmd.default`: `'*** Unknown syntax: %s\n' % line`. -/
def defaultOut (line : List Char) : List Char := "*** Unknown syntax: ".data ++ line ++ ['\n']

/-- Stand-in for the output of the inherited `cmd.Cmd.do_help` (a listing of
documented commands); its exact text plays no role in any modelled property. -/
def helpOut (_arg : List Char) : List Char := "Documented commands:\n".data

/-- `getattr(self, 'do_' + cmd)` dispatch over the defined handlers
(`do_s/l/q/u/d/w/p/pp` plus the inherited `do_help`); anything else falls to
`default`. -/
def dispatch (e : Explorer) (c arg line : List Char) :
    Except PyExc (List Char × Explorer × Bool) :=
  if c = "s".data then do_s e arg
  else if c = "l".data then do_l e arg
  else if c = "q".data then do_q e arg
  else if c = "u".data then do_u e arg
  else if c = "d".data then do_d e arg
  else if c = "w".data then do_w e arg
  else if c = "p".data then do_p e arg
  else if c = "pp".data then do_pp e arg
  else if c = "help".data then .ok (helpOut arg, e, false)
  else .ok (defaultOut line, e, false)

/-- The tail of `cmd.Cmd.onecmd` on a non-empty stripped line that is not a
`?`/`!` special: split off the identifier prefix, record `self.lastcmd`, then
dispatch.  An exception escaping the handler is paired with the state at the
raise (the handlers raise, if at all, before mutating the session). -/
def cmdExec (e : Explorer) (line : List Char) :
    Except (PyExc × Explorer) (List Char × Explorer × Bool) :=
  let cName := line.takeWhile isIdentChar
  let arg := pyStrip (line.drop cName.length)
  let e' := { e with lastcmd := line }
  if cName = [] then .ok (defaultOut line, e', false)
  else
    match dispatch e' cName arg line with
    | .error ex => .error (ex, e')
    | .ok r => .ok r

/-- `cmd.Cmd.onecmd` (with `parseline`): strip the input; an empty line
repeats `lastcmd` (one re-entry, `emptyline`); `?` becomes `help `, `!`
without a `do_shell` falls to `default`. -/
def cmdOnecmd (e : Explorer) (input : List Char) :
    Except (PyExc × Explorer) (List Char × Explorer × Bool) :=
  let lineS := pyStrip input
  if lineS = [] then
    if e.lastcmd ≠ [] then cmdExec e (pyStrip e.lastcmd)
    else .ok ([], e, false)
  else if lineS.head? = some '!' then .ok (defaultOut lineS, e, false)
  else if lineS.head? = some '?' then cmdExec e ("help ".data ++ lineS.tail)
  else cmdExec e lineS

/-- `Explorer.onecmd`: the wrapper that catches any exception of the base
handling and prints `'%s in %r:' % (e.__class__.__name__, text), e`. -/
def Explorer.onecmd (e : Explorer) (text : List Char) : List Char × Explorer × Bool :=
  match cmdOnecmd e text with
  | .ok r => r
  | .error ((n, m), eAt) =>
    (n ++ " in ".data ++ pyReprStr text ++ ": ".data ++ m ++ ['\n'], eAt, false)

/-- `cmd.Cmd.cmdloop` over a finite input script: feed lines to `onecmd`
until it signals stop or input ends; collect the outputs. -/
def runSession : Explorer → List (List Char) → List (List Char) × Explorer
  | e, [] => ([], e)
  | e, line :: rest =>
    let r := Explorer.onecmd e line
    if r.2.2 then ([r.1], r.2.1)
    else
      let rr := runSession r.2.1 rest
      (r.1 :: rr.1, rr.2)

/-- The session fields the spec calls the Explorer state (message, chain,
focus) agree. -/
def sessionEq (a b : Explorer) : Prop :=
  b.msg = a.msg ∧ b.frames = a.frames ∧ b.index = a.index

/-- Effect of one successful command on the session fields: message and chain
are untouched and the focus either stays, or moves one step inside its legal
range. -/
def focusStep (a b : Explorer) : Prop :=
  b.msg = a.msg ∧ b.frames = a.frames ∧
  (b.index = a.index ∨ (0 < a.index ∧ b.index = a.index - 1) ∨
    (a.index < (a.frames.length : Int) - 1 ∧ b.index = a.index + 1))

theorem focusStep_refl (e : Explorer) : focusStep e e := ⟨rfl, rfl, Or.inl rfl⟩

theorem do_s_state (e : Explorer) (a : List Char) (r : List Char × Explorer × Bool)
    (h : do_s e a = Except.ok r) : r.2.1 = e ∧ r.2.2 = false := by
  simp only [do_s] at h
  split at h
  · simp at h
  · split at h
    · simp at h
    · cases h
      exact ⟨rfl, rfl⟩

theorem do_w_state (e : Explorer) (a : List Char) (r : List Char × Explorer × Bool)
    (h : do_w e a = Except.ok r) : r.2.1 = e ∧ r.2.2 = false := by
  simp only [do_w] at h
  split at h
  · simp at h
  · split at h
    · simp at h
    · split at h
      · simp at h
      · cases h
        exact ⟨rfl, rfl⟩

theorem do_p_state (e : Explorer) (a : List Char) (r : List Char × Explorer × Bool)
    (h : do_p e a = Except.ok r) : r.2.1 = e ∧ r.2.2 = false := by
  simp only [do_p] at h
  split at h
  · simp at h
  · split at h
    · simp at h
    · cases h
      exact ⟨rfl, rfl⟩

theorem do_pp_state (e : Explorer) (a : List Char) (r : List Char × Explorer × Bool)
    (h : do_pp e a = Except.ok r) : r.2.1 = e ∧ r.2.2 = false := by
  simp only [do_pp] at h
  split at h
  · simp at h
  · split at h
    · simp at h
    · cases h
      exact ⟨rfl, rfl⟩

theorem do_u_state (e : Explorer) (a : List Char) (r : List Char × Explorer × Bool)
    (h : do_u e a = Except.ok r) : focusStep e r.2.1 := by
  simp only [do_u] at h
  split at h
  · cases h
    exact ⟨rfl, rfl, Or.inr (Or.inl ⟨by assumption, rfl⟩)⟩
  · cases h
    exact focusStep_refl e

theorem do_d_state (e : Explorer) (a : List Char) (r : List Char × Explorer × Bool)
    (h : do_d e a = Except.ok r) : focusStep e r.2.1 := by
  simp only [do_d] at h
  split at h
  · cases h
    exact ⟨rfl, rfl, Or.inr (Or.inr ⟨by assumption, rfl⟩)⟩
  · cases h
    exact focusStep_refl e

theorem dispatch_state (e : Explorer) (c a l : List Char) (r : List Char × Explorer × Bool)
    (h : dispatch e c a l = Except.ok r) : focusStep e r.2.1 := by
  simp only [dispatch] at h
  split_ifs at h
  · exact (do_s_state e a r h).1 ▸ focusStep_refl e
  · cases h; exact focusStep_refl e
  · cases h; exact focusStep_refl e
  · exact do_u_state e a r h
  · exact do_d_state e a r h
  · exact (do_w_state e a r h).1 ▸ focusStep_refl e
  · exact (do_p_state e a r h).1 ▸ focusStep_refl e
  · exact (do_pp_state e a r h).1 ▸ focusStep_refl e
  · cases h; exact focusStep_refl e
  · cases h; exact focusStep_refl e

theorem cmdExec_ok_state (e : Explorer) (line : List Char) (r : List Char × Explorer × Bool)
    (h : cmdExec e line = Except.ok r) : focusStep e r.2.1 := by
  simp only [cmdExec] at h
  split_ifs at h
  · cases h
    exact focusStep_refl e
  · split at h
    · simp at h
    · rename_i hq
      cases h
      exact dispatch_state { e with lastcmd := line } _ _ line _ hq

theorem cmdExec_err_state (e : Explorer) (line : List Char) (ex : PyExc) (eAt : Explorer)
    (h : cmdExec e line = Except.error (ex, eAt)) : sessionEq e eAt := by
  simp only [cmdExec] at h
  split_ifs at h
  split at h
  · cases h
    exact ⟨rfl, rfl, rfl⟩
  · exact Except.noConfusion h

theorem cmdOnecmd_ok_state (e : Explorer) (input : List Char) (r : List Char × Explorer × Bool)
    (h : cmdOnecmd e input = Except.ok r) : focusStep e r.2.1 := by
  simp only [cmdOnecmd] at h
  split_ifs at h
  · exact cmdExec_ok_state e _ r h
  · cases h
    exact focusStep_refl e
  · cases h
    exact focusStep_refl e
  · exact cmdExec_ok_state e _ r h
  · exact cmdExec_ok_state e _ r h

theorem cmdOnecmd_err_state (e : Explorer) (input : List Char) (ex : PyExc) (eAt : Explorer)
    (h : cmdOnecmd e input = Except.error (ex, eAt)) : sessionEq e eAt := by
  simp only [cmdOnecmd] at h
  split_ifs at h
  · exact cmdExec_err_state e _ ex eAt h
  · exact cmdExec_err_state e _ ex eAt h
  · exact cmdExec_err_state e _ ex eAt h

/-- Any input line: the session fields after `Explorer.onecmd` are related to
the ones before by `focusStep` (an exception leaves them untouched). -/
theorem onecmd_state (e : Explorer) (input : List Char) :
    focusStep e (Explorer.onecmd e input).2.1 := by
  unfold Explorer.onecmd
  split
  · rename_i r hr
    exact cmdOnecmd_ok_state e input r hr
  · rename_i n m eAt hr
    have hs := cmdOnecmd_err_state e input (n, m) eAt hr
    exact ⟨hs.1, hs.2.1, Or.inl hs.2.2⟩

/-- Claim C5: a session over a non-empty chain starts focused on the innermost
frame (`len(chain)-1`, which is inside the legal range), and every command
keeps the focus inside `0 ≤ focus < len(chain)` (the chain itself is never
replaced). -/
theorem C5_focus_invariant (rich : Bool) (msg intro banner : List Char) (frames : List Frame)
    (e : Explorer) (hinit : explorerInit rich msg frames intro = Except.ok (banner, e))
    (hne : frames ≠ []) :
    e.index = (frames.length : Int) - 1
    ∧ 0 ≤ e.index ∧ e.index < (frames.length : Int)
    ∧ ∀ (e₀ : Explorer) (input : List Char),
        0 ≤ e₀.index → e₀.index < (e₀.frames.length : Int) →
        0 ≤ (Explorer.onecmd e₀ input).2.1.index
        ∧ (Explorer.onecmd e₀ input).2.1.index
            < ((Explorer.onecmd e₀ input).2.1.frames.length : Int) := by
  have hlen : 0 < frames.length := List.length_pos.mpr hne
  unfold explorerInit at hinit
  split at hinit
  · exact Except.noConfusion hinit
  · cases hinit
    refine ⟨rfl, by simp; omega, by simp, ?_⟩
    intro e₀ input h0 h1
    obtain ⟨hm, hf, hstep⟩ := onecmd_state e₀ input
    rw [hf]
    rcases hstep with h | ⟨ha, h⟩ | ⟨ha, h⟩ <;> rw [h] <;> omega

/-- Claim C7 (code bug): with rich output the banner is built from Unicode
box-drawing characters, but in the default (non-rich) branch the source never
assigns the local `ur` (`ul = ul = ll = lr = '+'`), so constructing the
Explorer raises `UnboundLocalError` instead of producing an ASCII banner. -/
theorem C7_banner_bug (msg intro : List Char) (frames : List Frame) :
    explorerInit false msg frames intro = Except.error (unboundLocalError ("ur".data))
    ∧ ∃ banner e, explorerInit true msg frames intro = Except.ok (banner, e)
        ∧ banner.head? = some '┌' := by
  constructor
  · rfl
  · refine ⟨_, _, rfl, ?_⟩
    show (List.intercalate ['\n']
      (['┌' :: List.replicate 46 '─' ++ ['┐']]
        ++ (introLines intro).map (fun l => '│' :: pyLjust (' ' :: l) 46 ++ ['│'])
        ++ ['└' :: List.replicate 46 '─' ++ ['┘']])).head? = some '┌'
    rw [List.cons_append, List.intercalate]
    simp [List.intersperse]

/-- Claim C8: `up` decrements the focus and is a complete no-op at focus 0;
`down` increments it and is a complete no-op at the last frame — both at the
handler level and through the full command pipeline. -/
theorem C8_up_down (e : Explorer) :
    (e.index = 0 → do_u e [] = Except.ok ([], e, false))
    ∧ (0 < e.index → do_u e [] =
        Except.ok (show_context { e with index := e.index - 1 },
          { e with index := e.index - 1 }, false))
    ∧ (e.index = (e.frames.length : Int) - 1 → do_d e [] = Except.ok ([], e, false))
    ∧ (e.index < (e.frames.length : Int) - 1 → do_d e [] =
        Except.ok (show_context { e with index := e.index + 1 },
          { e with index := e.index + 1 }, false))
    ∧ (e.index = 0 →
        Explorer.onecmd e ("u".data) = ([], { e with lastcmd := "u".data }, false))
    ∧ (e.index = (e.frames.length : Int) - 1 →
        Explorer.onecmd e ("d".data) = ([], { e with lastcmd := "d".data }, false)) := by
  refine ⟨?_, ?_, ?_, ?_, ?_, ?_⟩
  · intro h
    unfold do_u
    rw [if_neg (by omega)]
  · intro h
    unfold do_u
    rw [if_pos h]
  · intro h
    unfold do_d
    rw [if_neg (by omega)]
  · intro h
    unfold do_d
    rw [if_pos h]
  · intro h
    have hstep : do_u { e with lastcmd := "u".data } [] =
        Except.ok ([], { e with lastcmd := "u".data }, false) := by
      unfold do_u
      rw [if_neg (by simp [h])]
    have hco : cmdOnecmd e ("u".data) =
        Except.ok ([], { e with lastcmd := "u".data }, false) := by
      show (match do_u { e with lastcmd := "u".data } [] with
            | .error ex => Except.error (ex, { e with lastcmd := "u".data })
            | .ok r => Except.ok r) = _
      rw [hstep]
    unfold Explorer.onecmd
    rw [hco]
  · intro h
    have hstep : do_d { e with lastcmd := "d".data } [] =
        Except.ok ([], { e with lastcmd := "d".data }, false) := by
      unfold do_d
      rw [if_neg (by simp [h])]
    have hco : cmdOnecmd e ("d".data) =
        Except.ok ([], { e with lastcmd := "d".data }, false) := by
      show (match do_d { e with lastcmd := "d".data } [] with
            | .error ex => Except.error (ex, { e with lastcmd := "d".data })
            | .ok r => Except.ok r) = _
      rw [hstep]
    unfold Explorer.onecmd
    rw [hco]

def sampleFrame : Frame := ⟨samplePyFrame, 2⟩

def sampleMsg : List Char := "ZeroDivisionError('integer division or modulo by zero',)".data

def sampleExplorer0 : Explorer := ⟨sampleMsg, [sampleFrame, sampleFrame], 0, []⟩

def sampleExplorer1 : Explorer := ⟨sampleMsg, [sampleFrame, sampleFrame], 1, []⟩

/-- Claim C5 (witness): the invariant theorem applied to a concrete 3-frame
session issuing `u`. -/
theorem C5_witness :
    0 ≤ (Explorer.onecmd sampleExplorer1 ("u".data)).2.1.index
    ∧ (Explorer.onecmd sampleExplorer1 ("u".data)).2.1.index
        < ((Explorer.onecmd sampleExplorer1 ("u".data)).2.1.frames.length : Int) := by
  have h := C5_focus_invariant true sampleMsg ("post mortem".data)
      (exceptOk (explorerIntro true ("post mortem".data)))
      [sampleFrame, sampleFrame, sampleFrame]
      ⟨sampleMsg, [sampleFrame, sampleFrame, sampleFrame],
        (([sampleFrame, sampleFrame, sampleFrame] : List Frame).length : Int) - 1, []⟩
      rfl (by simp)
  exact h.2.2.2 sampleExplorer1 ("u".data) (by decide) (by decide)

/-- Claim C8 (witness): the no-op and stepping cases at concrete sessions. -/
theorem C8_witness :
    do_u sampleExplorer0 [] = Except.ok ([], sampleExplorer0, false)
    ∧ do_u sampleExplorer1 [] =
        Except.ok (show_context { sampleExplorer1 with index := sampleExplorer1.index - 1 },
          { sampleExplorer1 with index := sampleExplorer1.index - 1 }, false)
    ∧ Explorer.onecmd sampleExplorer1 ("d".data) =
        ([], { sampleExplorer1 with lastcmd := "d".data }, false) := by
  refine ⟨(C8_up_down sampleExplorer0).1 rfl, ?_, ?_⟩
  · exact (C8_up_down sampleExplorer1).2.1 (by decide)
  · exact (C8_up_down sampleExplorer1).2.2.2.2.2 (by decide)

theorem pyLstrip_cons_not (c : Char) (l : List Char) (h : isPySpace c = false) :
    pyLstrip (c :: l) = c :: l := by
  simp [pyLstrip, List.dropWhile_cons, h]

theorem pyLstrip_cons_space (c : Char) (l : List Char) (h : isPySpace c = true) :
    pyLstrip (c :: l) = pyLstrip l := by
  simp [pyLstrip, List.dropWhile_cons, h]

theorem dropWhile_append_left (p : Char → Bool) (u v : List Char) (h : u.dropWhile p ≠ []) :
    (u ++ v).dropWhile p = u.dropWhile p ++ v := by
  induction u with
  | nil => simp at h
  | cons c u ih =>
    by_cases hc : p c
    · simp only [List.cons_append, List.dropWhile_cons, hc, if_true] at h ⊢
      exact ih h
    · simp [List.dropWhile_cons, hc]

/-- Appending to the left of a string with no trailing whitespace does not
change what `rstrip` removes. -/
theorem pyRstrip_append_of_fixed (a b : List Char) (hb : pyRstrip b = b) (hne : b ≠ []) :
    pyRstrip (a ++ b) = a ++ b := by
  unfold pyRstrip at hb ⊢
  have h1 : b.reverse.dropWhile isPySpace = b.reverse := by
    have := congrArg List.reverse hb
    simpa using this
  rw [List.reverse_append, dropWhile_append_left _ _ _ (by rw [h1]; simpa using hne)]
  rw [h1, List.reverse_append]
  simp

/-- Claim C10: with an empty locals dict the `w` command's column-width
computation (`max(...)`) raises `ValueError`, which the `onecmd` wrapper
catches and reports; the session fields are untouched and the loop goes on. -/
theorem C10_locals_empty (e : Explorer) (f : Frame)
    (hidx : pyIndex e.frames e.index = Except.ok f)
    (hloc : f.frame.f_locals = []) :
    Explorer.onecmd e ("w".data) =
      ("ValueError in 'w': max() arg is an empty sequence\n".data,
        { e with lastcmd := "w".data }, false) := by
  have h1 : ({ e with lastcmd := "w".data } : Explorer).frames = e.frames := rfl
  have h2 : ({ e with lastcmd := "w".data } : Explorer).index = e.index := rfl
  have hw : do_w { e with lastcmd := "w".data } [] =
      Except.error ("ValueError".data, "max() arg is an empty sequence".data) := by
    simp only [do_w, h1, h2, hidx, hloc]
  have hco : cmdOnecmd e ("w".data) =
      Except.error (("ValueError".data, "max() arg is an empty sequence".data),
        { e with lastcmd := "w".data }) := by
    show (match do_w { e with lastcmd := "w".data } [] with
          | .error ex => Except.error (ex, { e with lastcmd := "w".data })
          | .ok r => Except.ok r) = _
    rw [hw]
  unfold Explorer.onecmd
  rw [hco]
  rfl

/-- Claim C10 (witness): the focused frame of the sample session has no
locals; `w` comes back as a caught `ValueError` report. -/
theorem C10_witness :
    Explorer.onecmd sampleExplorer1 ("w".data) =
      ("ValueError in 'w': max() arg is an empty sequence\n".data,
        { sampleExplorer1 with lastcmd := "w".data }, false) :=
  C10_locals_empty sampleExplorer1 sampleFrame rfl rfl

/-- Claim C3: any exception escaping a command handler is caught by the
`onecmd` wrapper, reported as `'<ErrorKind> in <repr input>: <message>'`, the
loop is told to continue, and the session fields (message, chain, focus) are
exactly as before.  In particular a throwing `eval` under the `p` command
reports and continues, and a following `l` prints the unchanged context. -/
theorem C3_fault_isolation (e : Explorer) (text : List Char) :
    (∀ (ex : PyExc) (eAt : Explorer), cmdOnecmd e text = Except.error (ex, eAt) →
      Explorer.onecmd e text =
        (ex.1 ++ " in ".data ++ pyReprStr text ++ ": ".data ++ ex.2 ++ ['\n'], eAt, false)
      ∧ sessionEq e eAt)
    ∧ (∀ (expr : List Char) (f : Frame) (nm ms : List Char),
        pyLstrip expr = expr → pyRstrip expr = expr → expr ≠ [] →
        pyIndex e.frames e.index = Except.ok f →
        f.frame.evalResult expr = Except.error (nm, ms) →
        Explorer.onecmd e ("p ".data ++ expr) =
          (nm ++ " in ".data ++ pyReprStr ("p ".data ++ expr) ++ ": ".data ++ ms ++ ['\n'],
            { e with lastcmd := "p ".data ++ expr }, false)
        ∧ Explorer.onecmd { e with lastcmd := "p ".data ++ expr } ("l".data) =
            (show_context e, { e with lastcmd := "l".data }, false)) := by
  constructor
  · intro ex eAt h
    obtain ⟨n, m⟩ := ex
    refine ⟨?_, cmdOnecmd_err_state e text (n, m) eAt h⟩
    unfold Explorer.onecmd
    rw [h]
  · intro expr f nm ms hl hr hne hidx heval
    have hstrip : pyStrip ("p ".data ++ expr) = 'p' :: ' ' :: expr := by
      show pyStrip ('p' :: ' ' :: expr) = _
      unfold pyStrip
      rw [pyLstrip_cons_not 'p' _ rfl]
      exact pyRstrip_append_of_fixed ['p', ' '] expr hr hne
    have harg : pyStrip (' ' :: expr) = expr := by
      unfold pyStrip
      rw [pyLstrip_cons_space ' ' _ rfl, hl, hr]
    have h1 : ({ e with lastcmd := 'p' :: ' ' :: expr } : Explorer).frames = e.frames := rfl
    have h2 : ({ e with lastcmd := 'p' :: ' ' :: expr } : Explorer).index = e.index := rfl
    have hdo : do_p { e with lastcmd := 'p' :: ' ' :: expr } expr = Except.error (nm, ms) := by
      simp only [do_p, h1, h2, hidx, heval]
    have hco : cmdOnecmd e ("p ".data ++ expr) =
        Except.error ((nm, ms), { e with lastcmd := 'p' :: ' ' :: expr }) := by
      have hbody : cmdOnecmd e ("p ".data ++ expr) = cmdExec e ('p' :: ' ' :: expr) := by
        simp only [cmdOnecmd]
        rw [hstrip]
        rw [if_neg (by simp)]
        rw [if_neg (fun hcon => by
          rw [List.head?_cons] at hcon
          exact (by decide : ('p' : Char) ≠ '!') (Option.some.inj hcon))]
        rw [if_neg (fun hcon => by
          rw [List.head?_cons] at hcon
          exact (by decide : ('p' : Char) ≠ '?') (Option.some.inj hcon))]
      rw [hbody]
      show (match do_p { e with lastcmd := 'p' :: ' ' :: expr } (pyStrip (' ' :: expr)) with
            | .error ex => Except.error (ex, { e with lastcmd := 'p' :: ' ' :: expr })
            | .ok r => Except.ok r) = _
      rw [harg, hdo]
    constructor
    · unfold Explorer.onecmd
      rw [hco]
      rfl
    · rfl

/-- Claim C3 (witness): a failing `eval('q')` on the sample session, followed
by a normal `l`. -/
theorem C3_witness :
    Explorer.onecmd sampleExplorer1 ("p ".data ++ "q".data) =
      ("NameError".data ++ " in ".data ++ pyReprStr ("p ".data ++ "q".data) ++ ": ".data
          ++ "name 'q' is not defined".data ++ ['\n'],
        { sampleExplorer1 with lastcmd := "p ".data ++ "q".data }, false)
    ∧ Explorer.onecmd { sampleExplorer1 with lastcmd := "p ".data ++ "q".data } ("l".data) =
        (show_context sampleExplorer1, { sampleExplorer1 with lastcmd := "l".data }, false) :=
  (C3_fault_isolation sampleExplorer1 ("p ".data ++ "q".data)).2 ("q".data) sampleFrame
    ("NameError".data) ("name 'q' is not defined".data) (by decide) (by decide) (by decide)
    rfl rfl

/-- `Config.__dict__`: an attribute dict, modelled as an association list with
each key occurring at most once (the invariant Python dicts maintain).  The
value type is abstract; object identity (`is`) is modelled as equality. -/
def configGet {V : Type} : List (List Char × V) → List Char → Option V
  | [], _ => none
  | (k', w) :: rest, k => if k' = k then some w else configGet rest k

/-- `object.__setattr__`: replace the value of an existing key in place, or
append a new binding. -/
def configSetRaw {V : Type} [DecidableEq V] :
    List (List Char × V) → List Char → V → List (List Char × V)
  | [], k, v => [(k, v)]
  | (k', w) :: rest, k, v =>
    if k' = k then (k, v) :: rest else (k', w) :: configSetRaw rest k v

/-- `object.__delattr__`: drop the binding of `k` (a dict holds a key once). -/
def configDelRaw {V : Type} (c : List (List Char × V)) (k : List Char) :
    List (List Char × V) :=
  c.filter fun kv => kv.1 ≠ k

/-- `Config.__setattr__`: unconditionally raises, touching nothing. -/
def configSetattr {V : Type} (_c : List (List Char × V)) (k : List Char) (_v : V) :
    Except PyExc (List (List Char × V)) :=
  .error ("AttributeError".data, "readonly attribute: ".data ++ k)

/-- `Config.__delattr__`: unconditionally raises, touching nothing. -/
def configDelattr {V : Type} (_c : List (List Char × V)) (k : List Char) :
    Except PyExc (List (List Char × V)) :=
  .error ("AttributeError".data, "readonly attribute: ".data ++ k)

/-- Entry half of `Config.__call__`: walk the override items in order; for
each key whose current value differs (`old_v is not new_v`, identity modelled
as equality) record the old value (`EMPTY`, i.e. `none`, when absent) and
install the new one.  Returns the updated dict and the recorded `old` map. -/
def configEnter {V : Type} [DecidableEq V] :
    List (List Char × V) → List (List Char × V) →
    List (List Char × V) × List (List Char × Option V)
  | c, [] => (c, [])
  | c, (k, v) :: rest =>
    match configGet c k with
    | some w =>
      if w = v then configEnter c rest
      else
        let r := configEnter (configSetRaw c k v) rest
        (r.1, (k, some w) :: r.2)
    | none =>
      let r := configEnter (configSetRaw c k v) rest
      (r.1, (k, none) :: r.2)

/-- The `finally` half of `Config.__call__` (runs on normal exit and on an
exception alike): put back every recorded old value, deleting keys that were
absent.  Python iterates the `old` dict in unspecified order; restores of
distinct keys commute on the attribute map, so the recording order used here
is inessential. -/
def configExit {V : Type} [DecidableEq V] :
    List (List Char × V) → List (List Char × Option V) → List (List Char × V)
  | c, [] => c
  | c, (k, some w) :: rest => configExit (configSetRaw c k w) rest
  | c, (k, none) :: rest => configExit (configDelRaw c k) rest

theorem configGet_set_self {V : Type} [DecidableEq V]
    (c : List (List Char × V)) (k : List Char) (v : V) :
    configGet (configSetRaw c k v) k = some v := by
  induction c with
  | nil => simp [configSetRaw, configGet]
  | cons kv rest ih =>
    obtain ⟨k', w⟩ := kv
    by_cases h : k' = k
    · simp [configSetRaw, configGet, h]
    · simp [configSetRaw, configGet, h, ih]

theorem configGet_set_other {V : Type} [DecidableEq V]
    (c : List (List Char × V)) (k j : List Char) (v : V) (hne : j ≠ k) :
    configGet (configSetRaw c k v) j = configGet c j := by
  induction c with
  | nil => simp [configSetRaw, configGet, Ne.symm hne]
  | cons kv rest ih =>
    obtain ⟨k', w⟩ := kv
    by_cases h : k' = k
    · subst h
      simp [configSetRaw, configGet, Ne.symm hne]
    · by_cases h2 : k' = j
      · simp [configSetRaw, configGet, h, h2, hne]
      · simp [configSetRaw, configGet, h, h2, ih]

theorem configGet_del_self {V : Type} (c : List (List Char × V)) (k : List Char) :
    configGet (configDelRaw c k) k = none := by
  induction c with
  | nil => rfl
  | cons kv rest ih =>
    obtain ⟨k', w⟩ := kv
    by_cases h : k' = k
    · have hstep : configDelRaw ((k', w) :: rest) k = configDelRaw rest k := by
        simp [configDelRaw, List.filter_cons, h]
      rw [hstep, ih]
    · have hstep : configDelRaw ((k', w) :: rest) k = (k', w) :: configDelRaw rest k := by
        simp [configDelRaw, List.filter_cons, h]
      rw [hstep]
      show (if k' = k then some w else configGet (configDelRaw rest k) k) = none
      rw [if_neg h, ih]

theorem configGet_del_other {V : Type} (c : List (List Char × V)) (k j : List Char)
    (hne : j ≠ k) :
    configGet (configDelRaw c k) j = configGet c j := by
  induction c with
  | nil => rfl
  | cons kv rest ih =>
    obtain ⟨k', w⟩ := kv
    by_cases h : k' = k
    · have hstep : configDelRaw ((k', w) :: rest) k = configDelRaw rest k := by
        simp [configDelRaw, List.filter_cons, h]
      rw [hstep, ih]
      subst h
      show configGet rest j = if k' = j then some w else configGet rest j
      rw [if_neg (Ne.symm hne)]
    · have hstep : configDelRaw ((k', w) :: rest) k = (k', w) :: configDelRaw rest k := by
        simp [configDelRaw, List.filter_cons, h]
      rw [hstep]
      show (if k' = j then some w else configGet (configDelRaw rest k) j)
        = if k' = j then some w else configGet rest j
      rw [ih]

/-- The restore loop only looks at the attribute map: pointwise-equal dicts
stay pointwise equal. -/
theorem configExit_congr {V : Type} [DecidableEq V]
    (old : List (List Char × Option V)) (a b : List (List Char × V))
    (hab : ∀ j, configGet a j = configGet b j) (j : List Char) :
    configGet (configExit a old) j = configGet (configExit b old) j := by
  induction old generalizing a b with
  | nil => exact hab j
  | cons kv rest ih =>
    obtain ⟨k, x⟩ := kv
    cases x with
    | some w =>
      refine ih (configSetRaw a k w) (configSetRaw b k w) ?_
      intro i
      by_cases hik : i = k
      · subst hik
        rw [configGet_set_self, configGet_set_self]
      · rw [configGet_set_other _ _ _ _ hik, configGet_set_other _ _ _ _ hik]
        exact hab i
    | none =>
      refine ih (configDelRaw a k) (configDelRaw b k) ?_
      intro i
      by_cases hik : i = k
      · subst hik
        rw [configGet_del_self, configGet_del_self]
      · rw [configGet_del_other _ _ _ hik, configGet_del_other _ _ _ hik]
        exact hab i

/-- Restoring a set of keys not containing `k` commutes with a set at `k`. -/
theorem configExit_set_skip {V : Type} [DecidableEq V]
    (old : List (List Char × Option V)) (a : List (List Char × V))
    (k : List Char) (w : V) (hk : k ∉ old.map Prod.fst) (j : List Char) :
    configGet (configExit (configSetRaw a k w) old) j =
      if j = k then some w else configGet (configExit a old) j := by
  induction old generalizing a with
  | nil =>
    by_cases hjk : j = k
    · subst hjk
      simp [configExit, configGet_set_self]
    · simp [configExit, hjk, configGet_set_other _ _ _ _ hjk]
  | cons kv rest ih =>
    obtain ⟨k1, x⟩ := kv
    have hk1 : k1 ≠ k := by
      intro hcon
      exact hk (by simp [hcon])
    have hkrest : k ∉ rest.map Prod.fst := fun hcon => hk (by simp [hcon])
    cases x with
    | some u =>
      show configGet (configExit (configSetRaw (configSetRaw a k w) k1 (u : V)) rest) j = _
      have hswap : ∀ i, configGet (configSetRaw (configSetRaw a k w) k1 u) i
          = configGet (configSetRaw (configSetRaw a k1 u) k w) i := by
        intro i
        by_cases hik1 : i = k1
        · subst hik1
          rw [configGet_set_self, configGet_set_other _ _ _ _ hk1, configGet_set_self]
        · by_cases hik : i = k
          · subst hik
            rw [configGet_set_other _ _ _ _ hik1, configGet_set_self, configGet_set_self]
          · rw [configGet_set_other _ _ _ _ hik1, configGet_set_other _ _ _ _ hik,
              configGet_set_other _ _ _ _ hik, configGet_set_other _ _ _ _ hik1]
      rw [configExit_congr rest _ _ hswap j, ih (configSetRaw a k1 u) hkrest]
      rfl
    | none =>
      show configGet (configExit (configDelRaw (configSetRaw a k w) k1) rest) j = _
      have hswap : ∀ i, configGet (configDelRaw (configSetRaw a k w) k1) i
          = configGet (configSetRaw (configDelRaw a k1) k w) i := by
        intro i
        by_cases hik1 : i = k1
        · subst hik1
          rw [configGet_del_self, configGet_set_other _ _ _ _ hk1, configGet_del_self]
        · by_cases hik : i = k
          · subst hik
            rw [configGet_del_other _ _ _ hik1, configGet_set_self, configGet_set_self]
          · rw [configGet_del_other _ _ _ hik1, configGet_set_other _ _ _ _ hik,
              configGet_set_other _ _ _ _ hik, configGet_del_other _ _ _ hik1]
      rw [configExit_congr rest _ _ hswap j, ih (configDelRaw a k1) hkrest]
      rfl

/-- Restoring a set of keys not containing `k` commutes with a delete at `k`. -/
theorem configExit_del_skip {V : Type} [DecidableEq V]
    (old : List (List Char × Option V)) (a : List (List Char × V))
    (k : List Char) (hk : k ∉ old.map Prod.fst) (j : List Char) :
    configGet (configExit (configDelRaw a k) old) j =
      if j = k then none else configGet (configExit a old) j := by
  induction old generalizing a with
  | nil =>
    by_cases hjk : j = k
    · subst hjk
      simp [configExit, configGet_del_self]
    · simp [configExit, hjk, configGet_del_other _ _ _ hjk]
  | cons kv rest ih =>
    obtain ⟨k1, x⟩ := kv
    have hk1 : k1 ≠ k := by
      intro hcon
      exact hk (by simp [hcon])
    have hkrest : k ∉ rest.map Prod.fst := fun hcon => hk (by simp [hcon])
    cases x with
    | some u =>
      show configGet (configExit (configSetRaw (configDelRaw a k) k1 (u : V)) rest) j = _
      have hswap : ∀ i, configGet (configSetRaw (configDelRaw a k) k1 u) i
          = configGet (configDelRaw (configSetRaw a k1 u) k) i := by
        intro i
        by_cases hik1 : i = k1
        · subst hik1
          rw [configGet_set_self, configGet_del_other _ _ _ hk1, configGet_set_self]
        · by_cases hik : i = k
          · subst hik
            rw [configGet_set_other _ _ _ _ hik1, configGet_del_self, configGet_del_self]
          · rw [configGet_set_other _ _ _ _ hik1, configGet_del_other _ _ _ hik,
              configGet_del_other _ _ _ hik, configGet_set_other _ _ _ _ hik1]
      rw [configExit_congr rest _ _ hswap j, ih (configSetRaw a k1 u) hkrest]
      rfl
    | none =>
      show configGet (configExit (configDelRaw (configDelRaw a k) k1) rest) j = _
      have hswap : ∀ i, configGet (configDelRaw (configDelRaw a k) k1) i
          = configGet (configDelRaw (configDelRaw a k1) k) i := by
        intro i
        by_cases hik1 : i = k1
        · subst hik1
          rw [configGet_del_self, configGet_del_other _ _ _ hk1, configGet_del_self]
        · by_cases hik : i = k
          · subst hik
            rw [configGet_del_other _ _ _ hik1, configGet_del_self, configGet_del_self]
          · rw [configGet_del_other _ _ _ hik1, configGet_del_other _ _ _ hik,
              configGet_del_other _ _ _ hik, configGet_del_other _ _ _ hik1]
      rw [configExit_congr rest _ _ hswap j, ih (configDelRaw a k1) hkrest]
      rfl

/-- Keys recorded by the entry half come from the override data. -/
theorem configEnter_old_keys {V : Type} [DecidableEq V]
    (data c : List (List Char × V)) (k : List Char)
    (hk : k ∈ (configEnter c data).2.map Prod.fst) : k ∈ data.map Prod.fst := by
  induction data generalizing c with
  | nil => simp [configEnter] at hk
  | cons kv rest ih =>
    obtain ⟨k1, v⟩ := kv
    rcases hget : configGet c k1 with _ | w
    · simp only [configEnter, hget, List.map_cons, List.mem_cons] at hk
      rcases hk with h | h
      · rw [List.map_cons]
        exact List.mem_cons.mpr (Or.inl h)
      · simp only [List.map_cons, List.mem_cons]
        exact Or.inr (ih _ h)
    · by_cases hwv : w = v
      · simp only [configEnter, hget, if_pos hwv] at hk
        simp only [List.map_cons, List.mem_cons]
        exact Or.inr (ih _ hk)
      · simp only [configEnter, hget, if_neg hwv, List.map_cons, List.mem_cons] at hk
        rcases hk with h | h
        · rw [List.map_cons]
          exact List.mem_cons.mpr (Or.inl h)
        · simp only [List.map_cons, List.mem_cons]
          exact Or.inr (ih _ h)

/-- A scoped override round-trips pointwise on the attribute map, given that
`**data` (Python keyword arguments) carries each key at most once. -/
theorem config_roundtrip {V : Type} [DecidableEq V]
    (data c : List (List Char × V)) (hnodup : (data.map Prod.fst).Nodup) (j : List Char) :
    configGet (configExit (configEnter c data).1 (configEnter c data).2) j
      = configGet c j := by
  induction data generalizing c with
  | nil => rfl
  | cons kv rest ih =>
    obtain ⟨k1, v1⟩ := kv
    rw [List.map_cons, List.nodup_cons] at hnodup
    obtain ⟨hn1, hn2⟩ := hnodup
    rcases hget : configGet c k1 with _ | w
    · have hred : configEnter c ((k1, v1) :: rest)
          = ((configEnter (configSetRaw c k1 v1) rest).1,
             (k1, none) :: (configEnter (configSetRaw c k1 v1) rest).2) := by
        simp [configEnter, hget]
      rw [hred]
      show configGet (configExit
        (configDelRaw (configEnter (configSetRaw c k1 v1) rest).1 k1)
        (configEnter (configSetRaw c k1 v1) rest).2) j = _
      have hk1old : k1 ∉ ((configEnter (configSetRaw c k1 v1) rest).2).map Prod.fst :=
        fun hin => hn1 (configEnter_old_keys rest _ k1 hin)
      rw [configExit_del_skip _ _ k1 hk1old j]
      by_cases hjk : j = k1
      · rw [if_pos hjk, hjk, hget]
      · rw [if_neg hjk, ih (configSetRaw c k1 v1) hn2,
          configGet_set_other _ _ _ _ hjk]
    · by_cases hwv : w = v1
      · have hred : configEnter c ((k1, v1) :: rest) = configEnter c rest := by
          simp [configEnter, hget, hwv]
        rw [hred]
        exact ih c hn2
      · have hred : configEnter c ((k1, v1) :: rest)
            = ((configEnter (configSetRaw c k1 v1) rest).1,
               (k1, some w) :: (configEnter (configSetRaw c k1 v1) rest).2) := by
          simp [configEnter, hget, hwv]
        rw [hred]
        show configGet (configExit
          (configSetRaw (configEnter (configSetRaw c k1 v1) rest).1 k1 w)
          (configEnter (configSetRaw c k1 v1) rest).2) j = _
        have hk1old : k1 ∉ ((configEnter (configSetRaw c k1 v1) rest).2).map Prod.fst :=
          fun hin => hn1 (configEnter_old_keys rest _ k1 hin)
        rw [configExit_set_skip _ _ k1 w hk1old j]
        by_cases hjk : j = k1
        · rw [if_pos hjk, hjk, hget]
        · rw [if_neg hjk, ih (configSetRaw c k1 v1) hn2,
            configGet_set_other _ _ _ _ hjk]

/-- Claim C9: the configuration is read-only from the outside — any direct
attribute assignment or deletion raises `AttributeError` without touching the
dict — and a scoped override round-trips: after the `finally` block of the
context (run on normal exit and on exception alike) every overridden key has
its previous value and keys that were absent are gone, so the attribute map
equals the prior one. -/
theorem C9_config_readonly_roundtrip {V : Type} [DecidableEq V]
    (c data : List (List Char × V)) (k j : List Char) (v : V)
    (hnodup : (data.map Prod.fst).Nodup) :
    configSetattr c k v
        = Except.error ("AttributeError".data, "readonly attribute: ".data ++ k)
    ∧ configDelattr c k
        = Except.error ("AttributeError".data, "readonly attribute: ".data ++ k)
    ∧ configGet (configExit (configEnter c data).1 (configEnter c data).2) j
        = configGet c j :=
  ⟨rfl, rfl, config_roundtrip data c hnodup j⟩

def sampleConfig : List (List Char × Nat) := [("verbose".data, 4), ("nprocs".data, 1)]

def sampleOverride : List (List Char × Nat) := [("verbose".data, 2), ("outdir".data, 7)]

/-- Claim C9 (witness): a concrete override of one present and one absent key
restores `verbose`. -/
theorem C9_witness :
    configSetattr sampleConfig ("verbose".data) 9
        = Except.error ("AttributeError".data, "readonly attribute: ".data ++ "verbose".data)
    ∧ configDelattr sampleConfig ("verbose".data)
        = Except.error ("AttributeError".data, "readonly attribute: ".data ++ "verbose".data)
    ∧ configGet (configExit (configEnter sampleConfig sampleOverride).1
          (configEnter sampleConfig sampleOverride).2) ("verbose".data)
        = configGet sampleConfig ("verbose".data) :=
  C9_config_readonly_roundtrip sampleConfig sampleOverride ("verbose".data) ("verbose".data) 9
    (by decide)

/-- Per-character action of the escape chain. -/
def escTbl (c : Char) : List Char :=
  if c = '<' then "&lt;".data else if c = '>' then "&gt;".data else [c]

theorem pyReplaceChar_append (c : Char) (rep a b : List Char) :
    pyReplaceChar c rep (a ++ b) = pyReplaceChar c rep a ++ pyReplaceChar c rep b := by
  induction a with
  | nil => rfl
  | cons d a ih => simp [pyReplaceChar, ih]

theorem htmlEscape_cons (c : Char) (s : List Char) :
    htmlEscape (c :: s) = escTbl c ++ htmlEscape s := by
  show pyReplaceChar '>' ("&gt;".data) (pyReplaceChar '<' ("&lt;".data) (c :: s)) = _
  have hinner : pyReplaceChar '<' ("&lt;".data) (c :: s)
      = (if c = '<' then "&lt;".data else [c]) ++ pyReplaceChar '<' ("&lt;".data) s := by
    simp [pyReplaceChar]
  rw [hinner, pyReplaceChar_append]
  by_cases h1 : c = '<'
  · subst h1
    rw [if_pos rfl]
    rfl
  · rw [if_neg h1]
    by_cases h2 : c = '>'
    · subst h2
      rfl
    · have houter : pyReplaceChar '>' ("&gt;".data) [c] = [c] := by
        simp [pyReplaceChar, h2]
      rw [houter, show escTbl c = [c] from by simp [escTbl, h1, h2]]
      rfl

/-- The escape output is free of literal angle brackets. -/
theorem htmlEscape_no_angle (s : List Char) :
    '<' ∉ htmlEscape s ∧ '>' ∉ htmlEscape s := by
  induction s with
  | nil => exact ⟨by simp [htmlEscape, pyReplaceChar], by simp [htmlEscape, pyReplaceChar]⟩
  | cons c s ih =>
    rw [htmlEscape_cons]
    constructor
    · intro hmem
      rcases List.mem_append.mp hmem with h | h
      · unfold escTbl at h
        by_cases h1 : c = '<'
        · rw [if_pos h1] at h
          exact absurd h (by decide)
        · rw [if_neg h1] at h
          by_cases h2 : c = '>'
          · rw [if_pos h2] at h
            exact absurd h (by decide)
          · rw [if_neg h2] at h
            exact h1 (List.mem_singleton.mp h).symm
      · exact ih.1 h
    · intro hmem
      rcases List.mem_append.mp hmem with h | h
      · unfold escTbl at h
        by_cases h1 : c = '<'
        · rw [if_pos h1] at h
          exact absurd h (by decide)
        · rw [if_neg h1] at h
          by_cases h2 : c = '>'
          · rw [if_pos h2] at h
            exact absurd h (by decide)
          · rw [if_neg h2] at h
            exact h2 (List.mem_singleton.mp h).symm
      · exact ih.2 h

theorem isPrefixOf_exists (p s : List Char) (h : p.isPrefixOf s = true) :
    ∃ t, s = p ++ t := by
  induction p generalizing s with
  | nil => exact ⟨s, rfl⟩
  | cons a p ih =>
    cases s with
    | nil => simp [List.isPrefixOf] at h
    | cons b s =>
      simp only [List.isPrefixOf, Bool.and_eq_true, beq_iff_eq] at h
      obtain ⟨rfl, h2⟩ := h
      obtain ⟨t, rfl⟩ := ih s h2
      exact ⟨t, rfl⟩

theorem isPrefixOf_self_append (p t : List Char) : p.isPrefixOf (p ++ t) = true := by
  induction p with
  | nil => simp [List.isPrefixOf]
  | cons a p ih => simp [List.isPrefixOf, ih]

theorem removeBold_cons_not (c : Char) (rest : List Char) (h : c ≠ '<') :
    removeBold (c :: rest) = c :: removeBold rest := by
  simp only [removeBold]
  rw [if_neg (fun hcon => h hcon.1), if_neg (fun hcon => h hcon.1)]

theorem removeBold_bopen (x : List Char) :
    removeBold ("<b>".data ++ x) = removeBold x := by
  show removeBold ('<' :: 'b' :: '>' :: x) = _
  simp only [removeBold]
  rw [if_pos ⟨trivial, rfl⟩]
  rfl

theorem removeBold_bclose (x : List Char) :
    removeBold ("</b>".data ++ x) = removeBold x := by
  show removeBold ('<' :: '/' :: 'b' :: '>' :: x) = _
  simp only [removeBold]
  rw [show ('/' :: 'b' :: '>' :: x).take 2 = ['/', 'b'] from rfl]
  rw [if_neg (by intro hcon; exact absurd hcon.2 (by decide))]
  rw [if_pos ⟨trivial, rfl⟩]
  rfl

theorem removeBold_append_no_angle (a b : List Char) (ha : '<' ∉ a) :
    removeBold (a ++ b) = a ++ removeBold b := by
  induction a with
  | nil => rfl
  | cons c a ih =>
    have hc : c ≠ '<' := fun hcon => ha (by rw [hcon]; exact List.mem_cons_self _ _)
    rw [List.cons_append, removeBold_cons_not c _ hc,
      ih (fun hmem => ha (List.mem_cons_of_mem _ hmem)), List.cons_append]

theorem tryKw_spec (prev : Option Char) (s k rem : List Char)
    (h : tryKw prev s = some (k, rem)) :
    k ∈ pyKeywords ∧ k.isPrefixOf s = true ∧ rem = s.drop k.length := by
  unfold tryKw at h
  split_ifs at h
  obtain ⟨a, ha, hfa⟩ := List.exists_of_findSome?_eq_some h
  dsimp only at hfa
  split_ifs at hfa with hp hb
  cases hfa
  exact ⟨ha, hp, rfl⟩

theorem pyKeyword_facts (k : List Char) (hk : k ∈ pyKeywords) :
    k ≠ [] ∧ '<' ∉ k := by
  simp only [pyKeywords, List.mem_cons, List.not_mem_nil, or_false] at hk
  rcases hk with rfl | rfl | rfl | rfl | rfl | rfl | rfl | rfl | rfl
  all_goals exact ⟨by decide, by decide⟩

/-- Deleting the inserted `<b>`/`</b>` tokens undoes the keyword bolding on
any angle-free string (given enough fuel). -/
theorem removeBold_boldAux (fuel : Nat) (prev : Option Char) (s : List Char)
    (hfuel : s.length ≤ fuel) (hs : '<' ∉ s) :
    removeBold (boldAux fuel prev s) = s := by
  induction fuel generalizing prev s with
  | zero =>
    have hnil : s = [] := List.length_eq_zero.mp (Nat.le_zero.mp hfuel)
    subst hnil
    simp only [boldAux, removeBold]
  | succ fuel ih =>
    cases s with
    | nil => simp only [boldAux, removeBold]
    | cons c rest =>
      rcases htk : tryKw prev (c :: rest) with _ | ⟨k, rem⟩
      · show removeBold (match tryKw prev (c :: rest) with
             | some (k, rem) =>
               "<b>".data ++ k ++ "</b>".data ++ boldAux fuel k.getLast? rem
             | none => c :: boldAux fuel (some c) rest) = c :: rest
        rw [htk]
        show removeBold (c :: boldAux fuel (some c) rest) = c :: rest
        have hc : c ≠ '<' := fun hcon => hs (by rw [hcon]; exact List.mem_cons_self _ _)
        have hrest : rest.length ≤ fuel := by
          have hf : rest.length + 1 ≤ fuel + 1 := by simpa using hfuel
          omega
        rw [removeBold_cons_not c _ hc,
          ih (some c) rest hrest (fun hmem => hs (List.mem_cons_of_mem _ hmem))]
      · show removeBold (match tryKw prev (c :: rest) with
             | some (k, rem) =>
               "<b>".data ++ k ++ "</b>".data ++ boldAux fuel k.getLast? rem
             | none => c :: boldAux fuel (some c) rest) = c :: rest
        rw [htk]
        show removeBold ("<b>".data ++ k ++ "</b>".data ++ boldAux fuel k.getLast? rem)
          = c :: rest
        obtain ⟨hkmem, hkpre, hrem⟩ := tryKw_spec prev _ k rem htk
        obtain ⟨hkne, hknolt⟩ := pyKeyword_facts k hkmem
        obtain ⟨t, ht⟩ := isPrefixOf_exists k (c :: rest) hkpre
        have hremt : rem = t := by
          rw [hrem, ht, List.drop_left]
        subst hremt
        have hlen : rest.length + 1 = k.length + rem.length := by
          have hcg := congrArg List.length ht
          simpa using hcg
        have hklen : 1 ≤ k.length := by
          cases k with
          | nil => exact absurd rfl hkne
          | cons a k => simp
        have hremlen : rem.length ≤ fuel := by
          have hf : rest.length + 1 ≤ fuel + 1 := by simpa using hfuel
          omega
        have hremangle : '<' ∉ rem := by
          intro hmem
          exact hs (by rw [ht]; exact List.mem_append_right _ hmem)
        rw [show "<b>".data ++ k ++ "</b>".data ++ boldAux fuel k.getLast? rem
            = "<b>".data ++ (k ++ ("</b>".data ++ boldAux fuel k.getLast? rem)) from by
              simp [List.append_assoc]]
        rw [removeBold_bopen, removeBold_append_no_angle k _ hknolt, removeBold_bclose,
          ih k.getLast? rem hremlen hremangle, ht]

/-- Unescaping undoes escaping on any `&`-free string (its rendered text). -/
theorem htmlUnescape_escape (t : List Char) (hamp : '&' ∉ t) :
    htmlUnescape (htmlEscape t) = t := by
  induction t with
  | nil =>
    rw [show htmlEscape [] = [] from rfl]
    simp only [htmlUnescape]
  | cons c t ih =>
    have hamp' : '&' ∉ t := fun hmem => hamp (List.mem_cons_of_mem _ hmem)
    have hc : c ≠ '&' := fun hcon => hamp (by rw [hcon]; exact List.mem_cons_self _ _)
    rw [htmlEscape_cons]
    by_cases h1 : c = '<'
    · subst h1
      show htmlUnescape ('&' :: 'l' :: 't' :: ';' :: htmlEscape t) = _
      simp only [htmlUnescape]
      rw [if_pos ⟨trivial, rfl⟩,
        show ('l' :: 't' :: ';' :: htmlEscape t).drop 3 = htmlEscape t from rfl, ih hamp']
    · by_cases h2 : c = '>'
      · subst h2
        show htmlUnescape ('&' :: 'g' :: 't' :: ';' :: htmlEscape t) = _
        simp only [htmlUnescape]
        rw [show ('g' :: 't' :: ';' :: htmlEscape t).take 3 = "gt;".data from rfl]
        rw [if_neg (by intro hcon; exact absurd hcon.2 (by decide))]
        rw [if_pos ⟨trivial, rfl⟩,
          show ('g' :: 't' :: ';' :: htmlEscape t).drop 3 = htmlEscape t from rfl, ih hamp']
      · rw [show escTbl c = [c] from by simp [escTbl, h1, h2], List.singleton_append]
        simp only [htmlUnescape]
        rw [if_neg (fun hcon => hc hcon.1), if_neg (fun hcon => hc hcon.1), ih hamp']

theorem pyStrip_cons_space (t : List Char) : pyStrip (' ' :: t) = pyStrip t := by
  unfold pyStrip
  rw [pyLstrip_cons_space ' ' _ rfl]

theorem pyLstrip_all_space (a b : List Char) (ha : ∀ c ∈ a, isPySpace c = true) :
    pyLstrip (a ++ b) = pyLstrip b := by
  induction a with
  | nil => rfl
  | cons c a ih =>
    rw [List.cons_append, pyLstrip_cons_space c _ (ha c (List.mem_cons_self _ _)),
      ih (fun d hd => ha d (List.mem_cons_of_mem _ hd))]

/-- Dropping an all-whitespace prefix does not change the stripped text. -/
theorem pyStrip_drop_of_space (w : Nat) (l : List Char)
    (h : ∀ c ∈ l.take w, isPySpace c = true) : pyStrip (l.drop w) = pyStrip l := by
  conv_rhs => rw [← List.take_append_drop w l]
  unfold pyStrip
  rw [pyLstrip_all_space _ _ h]

/-- Every `<` in the string opens one of the renderer's own tags, i.e. is
immediately followed by `b` or `/` (in particular no trailing `<`). -/
def angleOk : List Char → Bool
  | [] => true
  | c :: rest =>
    (if c = '<' then decide (rest.head? = some 'b' ∨ rest.head? = some '/') else true)
      && angleOk rest

theorem angleOk_of_no_lt (s : List Char) (h : '<' ∉ s) : angleOk s = true := by
  induction s with
  | nil => rfl
  | cons c rest ih =>
    have hc : c ≠ '<' := fun hcon => h (by rw [hcon]; exact List.mem_cons_self _ _)
    simp only [angleOk, if_neg hc, Bool.true_and]
    exact ih (fun hmem => h (List.mem_cons_of_mem _ hmem))

theorem angleOk_append (a b : List Char) (ha : angleOk a = true) (hb : angleOk b = true) :
    angleOk (a ++ b) = true := by
  induction a with
  | nil => exact hb
  | cons c a ih =>
    simp only [angleOk, Bool.and_eq_true] at ha
    rw [List.cons_append]
    simp only [angleOk, Bool.and_eq_true]
    refine ⟨?_, ih ha.2⟩
    by_cases hc : c = '<'
    · rw [if_pos hc]
      rw [if_pos hc] at ha
      cases a with
      | nil => exact absurd ha.1 (by decide)
      | cons d a' =>
        simpa using (by simpa using ha.1 : (d :: a').head? = some 'b' ∨ (d :: a').head? = some '/')
    · rw [if_neg hc]

theorem angleOk_boldAux (fuel : Nat) (prev : Option Char) (s : List Char)
    (hfuel : s.length ≤ fuel) (hs : '<' ∉ s) :
    angleOk (boldAux fuel prev s) = true := by
  induction fuel generalizing prev s with
  | zero =>
    have hnil : s = [] := List.length_eq_zero.mp (Nat.le_zero.mp hfuel)
    subst hnil
    simp only [boldAux]
    rfl
  | succ fuel ih =>
    cases s with
    | nil =>
      simp only [boldAux]
      rfl
    | cons c rest =>
      rcases htk : tryKw prev (c :: rest) with _ | ⟨k, rem⟩
      · show angleOk (match tryKw prev (c :: rest) with
             | some (k, rem) =>
               "<b>".data ++ k ++ "</b>".data ++ boldAux fuel k.getLast? rem
             | none => c :: boldAux fuel (some c) rest) = true
        rw [htk]
        show angleOk (c :: boldAux fuel (some c) rest) = true
        have hc : c ≠ '<' := fun hcon => hs (by rw [hcon]; exact List.mem_cons_self _ _)
        have hrest : rest.length ≤ fuel := by
          have hf : rest.length + 1 ≤ fuel + 1 := by simpa using hfuel
          omega
        simp only [angleOk, if_neg hc, Bool.true_and]
        exact ih (some c) rest hrest (fun hmem => hs (List.mem_cons_of_mem _ hmem))
      · show angleOk (match tryKw prev (c :: rest) with
             | some (k, rem) =>
               "<b>".data ++ k ++ "</b>".data ++ boldAux fuel k.getLast? rem
             | none => c :: boldAux fuel (some c) rest) = true
        rw [htk]
        show angleOk ("<b>".data ++ k ++ "</b>".data ++ boldAux fuel k.getLast? rem) = true
        obtain ⟨hkmem, hkpre, hrem⟩ := tryKw_spec prev _ k rem htk
        obtain ⟨hkne, hknolt⟩ := pyKeyword_facts k hkmem
        obtain ⟨t, ht⟩ := isPrefixOf_exists k (c :: rest) hkpre
        have hremt : rem = t := by
          rw [hrem, ht, List.drop_left]
        subst hremt
        have hlen : rest.length + 1 = k.length + rem.length := by
          have hcg := congrArg List.length ht
          simpa using hcg
        have hklen : 1 ≤ k.length := by
          cases k with
          | nil => exact absurd rfl hkne
          | cons a k => simp
        have hremlen : rem.length ≤ fuel := by
          have hf : rest.length + 1 ≤ fuel + 1 := by simpa using hfuel
          omega
        have hremangle : '<' ∉ rem := by
          intro hmem
          exact hs (by rw [ht]; exact List.mem_append_right _ hmem)
        rw [show "<b>".data ++ k ++ "</b>".data ++ boldAux fuel k.getLast? rem
            = "<b>".data ++ (k ++ ("</b>".data ++ boldAux fuel k.getLast? rem)) from by
              simp [List.append_assoc]]
        refine angleOk_append _ _ (by decide) ?_
        refine angleOk_append _ _ (angleOk_of_no_lt k hknolt) ?_
        refine angleOk_append _ _ (by decide) ?_
        exact ih k.getLast? rem hremlen hremangle

theorem angleOk_boldKeywords (s : List Char) (hs : '<' ∉ s) :
    angleOk (boldKeywords s) = true :=
  angleOk_boldAux s.length none s le_rfl hs

/-- No span-opening token occurs in an `angleOk` string (its `<`s open only
`<b>`/`</b>` tags). -/
theorem countSub_angleOk (s : List Char) (h : angleOk s = true) :
    countSub spanOpenTok s = 0 := by
  induction s with
  | nil => rfl
  | cons c rest ih =>
    simp only [angleOk, Bool.and_eq_true] at h
    show (if spanOpenTok.isPrefixOf (c :: rest) then 1 else 0) + countSub spanOpenTok rest = 0
    rw [if_neg ?hpf, ih h.2]
    case hpf =>
      intro hcon
      obtain ⟨t, ht⟩ := isPrefixOf_exists _ _ hcon
      have hc : c = '<' := by
        have := congrArg List.head? ht
        simpa [spanOpenTok] using this
      have hrest : rest.head? = some 's' := by
        have := congrArg (fun l => l.tail.head?) ht
        simpa [spanOpenTok, hc] using this
      rw [if_pos hc, hrest] at h
      exact absurd h.1 (by decide)

theorem countSub_lt_head_skip (p a b : List Char) (ha : '<' ∉ a) :
    countSub ('<' :: p) (a ++ b) = countSub ('<' :: p) b := by
  induction a with
  | nil => rfl
  | cons c a ih =>
    have hc : c ≠ '<' := fun hcon => ha (by rw [hcon]; exact List.mem_cons_self _ _)
    show (if ('<' :: p).isPrefixOf (c :: (a ++ b)) then 1 else 0)
        + countSub ('<' :: p) (a ++ b) = _
    have hpf : ¬ (('<' :: p).isPrefixOf (c :: (a ++ b)) = true) := by
      intro hcon
      obtain ⟨t, ht⟩ := isPrefixOf_exists _ _ hcon
      have h1 : c = '<' := by
        have hhd := congrArg List.head? ht
        simpa using hhd
      exact hc h1
    rw [if_neg hpf, ih (fun hmem => ha (List.mem_cons_of_mem _ hmem)), Nat.zero_add]

/-- The span-opening token occurs exactly once in `spanOpenTok ++ X` when `X`
is `angleOk`. -/
theorem countSub_spanTok_self (X : List Char) (hX : angleOk X = true) :
    countSub spanOpenTok (spanOpenTok ++ X) = 1 := by
  have h0 : spanOpenTok ++ X = '<' :: ("span class=\"error\"> ".data ++ X) := rfl
  rw [h0]
  show (if spanOpenTok.isPrefixOf ('<' :: ("span class=\"error\"> ".data ++ X)) then 1 else 0)
      + countSub spanOpenTok ("span class=\"error\"> ".data ++ X) = 1
  have hskip : countSub spanOpenTok ("span class=\"error\"> ".data ++ X)
      = countSub spanOpenTok X :=
    countSub_lt_head_skip ("span class=\"error\"> ".data) ("span class=\"error\"> ".data) X
      (by decide)
  rw [if_pos (by rw [← h0]; exact isPrefixOf_self_append spanOpenTok X), hskip,
    countSub_angleOk X hX]

/-- Whether a `'\n'`-free pattern is a prefix is decided inside a chunk that
ends with `'\n'`; appending beyond a chunk boundary cannot create a match. -/
theorem isPrefixOf_append_stop : ∀ (pat : List Char), '\n' ∉ pat →
    ∀ (u b : List Char), u.getLast? = some '\n' →
    pat.isPrefixOf (u ++ b) = pat.isPrefixOf u := by
  intro pat
  induction pat with
  | nil =>
    intro _ u b _
    simp [List.isPrefixOf]
  | cons p pat ih =>
    intro hnl u b hu
    cases u with
    | nil => simp at hu
    | cons x u' =>
      show ((p == x) && pat.isPrefixOf (u' ++ b)) = ((p == x) && pat.isPrefixOf u')
      cases u' with
      | nil =>
        have hx : x = '\n' := by simpa using hu
        have hpx : p ≠ x := by
          intro hcon
          exact hnl (by rw [hcon, hx]; exact List.mem_cons_self _ _)
        rw [show (p == x) = false from by simpa using hpx]
        simp
      | cons y u'' =>
        have hu' : (y :: u'').getLast? = some '\n' := by
          rw [← hu]
          rfl
        rw [ih (fun hmem => hnl (List.mem_cons_of_mem _ hmem)) (y :: u'') b hu']

/-- Occurrence counting of a newline-free pattern distributes over a chunk
boundary at a trailing newline. -/
theorem countSub_append_nl (pat a b : List Char) (hne : pat ≠ []) (hnl : '\n' ∉ pat)
    (ha : a.getLast? = some '\n') :
    countSub pat (a ++ b) = countSub pat a + countSub pat b := by
  induction a with
  | nil => simp at ha
  | cons c a ih =>
    cases a with
    | nil =>
      have hc : c = '\n' := by simpa using ha
      subst hc
      have hpf : ¬ (pat.isPrefixOf ('\n' :: b) = true) := by
        intro hcon
        obtain ⟨t, ht⟩ := isPrefixOf_exists _ _ hcon
        cases pat with
        | nil => exact hne rfl
        | cons q pat' =>
          have hq : q = '\n' := by
            have hhd := congrArg List.head? ht
            simpa using hhd.symm
          exact hnl (by rw [← hq]; exact List.mem_cons_self _ _)
      have hpf2 : ¬ (pat.isPrefixOf ['\n'] = true) := by
        intro hcon
        obtain ⟨t, ht⟩ := isPrefixOf_exists _ _ hcon
        cases pat with
        | nil => exact hne rfl
        | cons q pat' =>
          have hq : q = '\n' := by
            have hhd := congrArg List.head? ht
            simpa using hhd.symm
          exact hnl (by rw [← hq]; exact List.mem_cons_self _ _)
      show (if pat.isPrefixOf ('\n' :: b) then 1 else 0) + countSub pat b
          = ((if pat.isPrefixOf ['\n'] then 1 else 0) + countSub pat []) + countSub pat b
      rw [if_neg hpf, if_neg hpf2]
      show 0 + countSub pat b = 0 + 0 + countSub pat b
      omega
    | cons d a' =>
      have ha' : (d :: a').getLast? = some '\n' := by
        rw [← ha]
        rfl
      show (if pat.isPrefixOf ((c :: d :: a') ++ b) then 1 else 0)
            + countSub pat ((d :: a') ++ b)
          = ((if pat.isPrefixOf (c :: d :: a') then 1 else 0) + countSub pat (d :: a'))
            + countSub pat b
      rw [isPrefixOf_append_stop pat hnl (c :: d :: a') b ha, ih ha']
      omega

theorem removeBold_boldKeywords (s : List Char) (hs : '<' ∉ s) :
    removeBold (boldKeywords s) = s :=
  removeBold_boldAux s.length none s le_rfl hs

theorem angleOk_boldKw (s : List Char) (hs : '<' ∉ s) : angleOk (boldKeywords s) = true :=
  angleOk_boldAux s.length none s le_rfl hs

/-- One source-line write carries exactly one error span iff the line bears
the sentinel marker. -/
theorem sourceLineFragment_count (line : List Char) :
    countSub spanOpenTok (sourceLineFragment line)
      = (if line.head? = some '>' then 1 else 0) := by
  unfold sourceLineFragment
  by_cases h : line.head? = some '>'
  · rw [if_pos h, if_pos h, List.append_assoc]
    refine countSub_spanTok_self _ ?_
    exact angleOk_append _ _
      (angleOk_boldKw _ (htmlEscape_no_angle line.tail).1) (by decide)
  · rw [if_neg h, if_neg h]
    exact countSub_angleOk _ (angleOk_append _ _
      (angleOk_boldKw _ (htmlEscape_no_angle line).1) (by decide))

theorem sourceLineFragment_last (line : List Char) :
    (sourceLineFragment line).getLast? = some '\n' := by
  unfold sourceLineFragment
  by_cases h : line.head? = some '>'
  · have hsplit : spanOpenTok ++ boldKeywords (htmlEscape line.tail) ++ "</span>\n".data
        = (spanOpenTok ++ boldKeywords (htmlEscape line.tail) ++ "</span>".data) ++ ['\n'] := by
      rw [show ("</span>\n".data : List Char) = "</span>".data ++ ['\n'] from rfl]
      simp [List.append_assoc]
    rw [if_pos h, hsplit]
    exact List.getLast?_concat _
  · rw [if_neg h]
    exact List.getLast?_concat _

/-- The number of error spans in a frame's source block equals the number of
sentinel-marked lines of the reconstructed source. -/
theorem sourceBlock_count (src : List Char) :
    countSub spanOpenTok (sourceBlock src)
      = (pySplitlines src).countP (fun l => l.head? = some '>') := by
  unfold sourceBlock
  generalize pySplitlines src = lines
  induction lines with
  | nil => rfl
  | cons l rest ih =>
    rw [List.map_cons, List.flatten_cons,
      countSub_append_nl spanOpenTok _ _ (by decide) (by decide) (sourceLineFragment_last l),
      sourceLineFragment_count l, ih, List.countP_cons]
    by_cases h : l.head? = some '>'
    · simp [h]
      omega
    · simp [h]

/-- Occurrence test: does `pat` occur contiguously in `s`? -/
def containsSub (pat : List Char) : List Char → Bool
  | [] => pat.isEmpty
  | c :: rest => pat.isPrefixOf (c :: rest) || containsSub pat rest

/-- Claim C2 (counterexample): not every piece of emitted text is escaped.
The identification dump at the top of `write_html`
(`'\n'.join([repr(exc_value)] + map(str, frames))`) embeds each frame's
context — including the stripped cursor source line — verbatim: for a frame
whose cursor line is `x = 1 < 2` the raw, unescaped text `x = 1 < 2` occurs
in the output. -/
theorem C2_counterexample :
    (write_html ("ValueError('bad',)".data) [⟨samplePyFrame, 2⟩]).isOk = true
    ∧ containsSub ("x = 1 < 2".data)
        (exceptOk (write_html ("ValueError('bad',)".data) [⟨samplePyFrame, 2⟩])) = true := by
  exact ⟨rfl, rfl⟩

/-- Claim C2 (amended): in the per-frame sections the renderer is safe as
claimed — the escape pass leaves no literal `<` or `>` (so a local whose
value contains `<script>` can never appear literally in a value cell), and
the keyword bolding only inserts the fixed `<b>`/`</b>` tokens (deleting them
recovers the escaped text).  The exception, forced by the counterexample, is
the top identification dump, which embeds `repr(exc_value)` and the frame
context lines unescaped. -/
theorem C2_amended :
    (∀ s : List Char, '<' ∉ htmlEscape s ∧ '>' ∉ htmlEscape s)
    ∧ (∀ line : List Char, removeBold (boldKeywords (htmlEscape line)) = htmlEscape line)
    ∧ (∀ s : List Char, ¬ List.IsInfix ("<script>".data) (htmlEscape s)) := by
  refine ⟨htmlEscape_no_angle, ?_, ?_⟩
  · intro line
    exact removeBold_boldKeywords _ (htmlEscape_no_angle line).1
  · intro s hinf
    exact (htmlEscape_no_angle s).1 (hinf.subset (by decide))

/-- A frame whose captured cursor line is the `def` line itself: the forward
scan never reaches it, so no source line carries the sentinel marker. -/
def samplePyFrameDef : PyFrame :=
  { file := ["def g():\n".data, "  y = 0\n".data]
    f_firstlineno := 1
    f_lineno := 1
    whereOf := fun _ => "File \"demo.py\", line 1, in g".data
    f_locals := [("y".data, Except.ok ("0".data))]
    evalResult := fun _ => .error ("NameError".data, "name 'q' is not defined".data) }

/-- Claim C6 (counterexample): the per-frame section does not always wrap the
requested cursor line in exactly one error span — with the cursor on the
`def` line the reconstruction marks nothing and the output contains zero
error spans. -/
theorem C6_counterexample :
    (write_html ("RuntimeError('boom',)".data) [⟨samplePyFrameDef, 1⟩]).isOk = true
    ∧ countSub spanOpenTok
        (exceptOk (write_html ("RuntimeError('boom',)".data) [⟨samplePyFrameDef, 1⟩])) = 0 := by
  exact ⟨rfl, rfl⟩

/-- Claim C6 (amended): in a frame's source block the error spans correspond
one-to-one to the sentinel-marked reconstructed lines (exactly one span when
exactly one line is marked); the rendered inner text of the span for a marked
line `'>'::t` — bold tags removed, entities unescaped — is `' '::t`, whose
stripped text equals the stripped marked text; and for a cursor line captured
as an ordinary body line (its first `indent+1` columns whitespace, which is
what the scan guarantees for non-comment, non-continuation lines), stripping
the marked tail equals stripping the original source line. -/
theorem C6_amended :
    (∀ src : List Char, countSub spanOpenTok (sourceBlock src)
        = (pySplitlines src).countP (fun l => l.head? = some '>'))
    ∧ (∀ t : List Char, '&' ∉ t →
        htmlUnescape (removeBold (' ' :: boldKeywords (htmlEscape t))) = ' ' :: t
        ∧ pyStrip (' ' :: t) = pyStrip t)
    ∧ (∀ (w : Nat) (l : List Char), (∀ c ∈ l.take w, isPySpace c = true) →
        pyStrip (l.drop w) = pyStrip l) := by
  refine ⟨sourceBlock_count, ?_, pyStrip_drop_of_space⟩
  intro t hamp
  constructor
  · rw [removeBold_cons_not ' ' _ (by decide),
      removeBold_boldKeywords _ (htmlEscape_no_angle t).1]
    simp only [htmlUnescape]
    rw [if_neg (fun hcon => absurd hcon.1 (by decide)),
      if_neg (fun hcon => absurd hcon.1 (by decide)),
      htmlUnescape_escape t hamp]
  · exact pyStrip_cons_space t

/-- Claim C6 (witness for the amended theorem): the span inner text of a
concrete marked line unrenders to the original body text, and stripping is
insensitive to the blank columns the scan skips. -/
theorem C6_witness :
    htmlUnescape (removeBold (' ' :: boldKeywords (htmlEscape ("if x: return 1 < 2".data))))
        = ' ' :: "if x: return 1 < 2".data
    ∧ pyStrip (List.drop 3 ("   y = 1\n".data)) = pyStrip ("   y = 1\n".data) := by
  refine ⟨(C6_amended.2.1 ("if x: return 1 < 2".data) (by decide)).1, ?_⟩
  exact C6_amended.2.2 3 ("   y = 1\n".data) (by decide)
